import Mathlib

/-!
Shallow embedding of `src/simulate_export.py`: a steady-state 2D Laplace
solver (Jacobi relaxation) on a left-right mirror-symmetric half domain.

Modelling conventions:
* numpy `float64` values are modelled by exact rationals `ℚ`;
* numpy 2D arrays are lists of row lists (`Grid`, `Mask`), read through the
  total accessors `gget` / `mget` and rebuilt each sweep with `mkGrid`
  (matching the per-iteration `T_new = T.copy()` allocation);
* Python 3 `round` (banker's rounding) is `pyRound`; Python slice-bound
  normalisation (negative indices, clamping) is `pySliceBound`;
* a Python `ZeroDivisionError` in `build_problem_half` is modelled by the
  predicate `build_ok`: the conjunction, in evaluation order, of the
  requirements that each scalar division executed has a nonzero divisor;
* the CSV exporter (`export_structured_csv_full`), progress printing and
  directory creation are out-of-scope external collaborators and are omitted;
  their cadence parameters do not influence the returned triple;
* the unbounded `while True` loop exits no later than the iteration where
  `epochs >= max_iters`, so it is embedded with fuel `max_iters + 1`, which
  provably never runs out.
-/

/-- A dense 2D scalar field (`np.float64` array) as a list of rows. -/
abbrev Grid := List (List ℚ)

/-- A boolean field (numpy `bool` array) as a list of rows. -/
abbrev Mask := List (List Bool)

/-- Entry `(j, i)` of a grid (0 outside the stored extent). -/
def gget (T : Grid) (j i : ℕ) : ℚ := (T.getD j []).getD i 0

/-- Entry `(j, i)` of a mask (`false` outside the stored extent). -/
def mget (M : Mask) (j i : ℕ) : Bool := (M.getD j []).getD i false

/-- Materialise an `Ny × Nx` grid from a value function. -/
def mkGrid (Ny Nx : ℕ) (f : ℕ → ℕ → ℚ) : Grid :=
  (List.range Ny).map fun j => (List.range Nx).map fun i => f j i

/-- Materialise an `Ny × Nx` mask from a value function. -/
def mkMask (Ny Nx : ℕ) (f : ℕ → ℕ → Bool) : Mask :=
  (List.range Ny).map fun j => (List.range Nx).map fun i => f j i

/-- Shape predicate: `Ny` rows, each of width `Nx`. -/
def Rect {α : Type} (Ny Nx : ℕ) (T : List (List α)) : Prop :=
  T.length = Ny ∧ ∀ r ∈ T, r.length = Nx

/-- Python 3 `round` on an exact value: round half to even. -/
def pyRound (q : ℚ) : ℤ :=
  if q - ⌊q⌋ < 1/2 then ⌊q⌋
  else if 1/2 < q - ⌊q⌋ then ⌊q⌋ + 1
  else if ⌊q⌋ % 2 = 0 then ⌊q⌋ else ⌊q⌋ + 1

/-- Normalisation of one bound of a Python slice over an axis of length `n`:
a negative index counts from the end, then the bound is clamped to `[0, n]`. -/
def pySliceBound (n : ℕ) (a : ℤ) : ℕ :=
  (max 0 (min (if a < 0 then a + n else a) (n : ℤ))).toNat

/-- Vertical spacing `h_y = L / (Ny - 1)` of `build_problem_half` (line 16). -/
def h_y_of (N : ℕ) (L : ℚ) : ℚ := L / ((N : ℚ) - 1)

/-- Half-domain width `Nx_half = Nx_full // 2 + 1` (line 17). -/
def nx_half (N : ℕ) : ℕ := N / 2 + 1

/-- Horizontal spacing `h_x = (L/2) / (Nx_half - 1) if Nx_half > 1 else 0`
(line 18): the guarded degenerate case defines the spacing as 0. -/
def h_x_of (N : ℕ) (L : ℚ) : ℚ :=
  if 1 < nx_half N then (L / 2) / ((nx_half N : ℚ) - 1) else 0

/-- Inner hot square bound `j_low = int(round((half - inner_half) / h_y))`
(line 43), with `half = L/2` and `inner_half = L_inner/2`. -/
def inner_j_low (N : ℕ) (L L_inner : ℚ) : ℤ :=
  pyRound ((L / 2 - L_inner / 2) / h_y_of N L)

/-- Inner hot square bound `j_high = int(round((half + inner_half) / h_y))`
(line 44). -/
def inner_j_high (N : ℕ) (L L_inner : ℚ) : ℤ :=
  pyRound ((L / 2 + L_inner / 2) / h_y_of N L)

/-- Inner hot square bound `i_right = int(round(inner_half / h_x))` (line 45). -/
def inner_i_right (N : ℕ) (L L_inner : ℚ) : ℤ :=
  pyRound ((L_inner / 2) / h_x_of N L)

/-- Clamped bath height `y0 = np.clip(bath_height or bath_fraction * L, 0, L)`
(lines 30-31); numpy clip computes `min a_max (max a_min x)`. -/
def y0_of (L : ℚ) (bath_height : Option ℚ) (bath_fraction : ℚ) : ℚ :=
  min L (max 0 (bath_height.getD (bath_fraction * L)))

/-- Outer-wall temperature profile `side_profile` at row `j` (lines 32-36):
`T_bottom` up to the clamped bath height, then linear to `T_top` at `y = L`.
The row height is the `linspace(0, L, Ny)` sample `y = j * h_y`.  When
`y0 = L` the second branch is never selected, matching `np.where` which keeps
only the first branch's values there. -/
def side_profile (L T_top T_bottom y0 h_y : ℚ) (j : ℕ) : ℚ :=
  if (j : ℚ) * h_y ≤ y0 then T_bottom
  else T_bottom + (T_top - T_bottom) * (((j : ℚ) * h_y - y0) / (L - y0))

/-- Result of `build_problem_half`: the tuple `(T, fixed, h_y, h_x, L)`. -/
structure BuildOut where
  T : Grid
  fixed : Mask
  h_y : ℚ
  h_x : ℚ
  L : ℚ

/-- `build_problem_half` (lines 8-49).  The grid value of a cell is the last
assignment the source makes to it, so the nested conditional tests the
regions in reverse source order: inner hot square (lines 46-47, written
last), outer-wall column (line 37), top row (line 27), bottom row (line 26),
uniform initial guess (line 20).  The fixed mask is the union of the same
regions.  The inner-square block is the Python slice
`[j_low : j_high+1, 0 : i_right+1]` with Python index normalisation. -/
def build_problem_half (N : ℕ) (L L_inner T_top T_bottom T_inner init_guess : ℚ)
    (bath_height : Option ℚ) (bath_fraction : ℚ) : BuildOut :=
  let Ny := N
  let Nxh := nx_half N
  let y0 := y0_of L bath_height bath_fraction
  let jLo := pySliceBound Ny (inner_j_low N L L_inner)
  let jHi := pySliceBound Ny (inner_j_high N L L_inner + 1)
  let iHi := pySliceBound Nxh (inner_i_right N L L_inner + 1)
  let tVal : ℕ → ℕ → ℚ := fun j i =>
    if jLo ≤ j ∧ j < jHi ∧ i < iHi then T_inner
    else if i = Nxh - 1 then side_profile L T_top T_bottom y0 (h_y_of N L) j
    else if j = Ny - 1 then T_top
    else if j = 0 then T_bottom
    else init_guess
  let fVal : ℕ → ℕ → Bool := fun j i =>
    decide (jLo ≤ j ∧ j < jHi ∧ i < iHi) || decide (i = Nxh - 1) ||
      decide (j = Ny - 1) || decide (j = 0)
  ⟨mkGrid Ny Nxh tVal, mkMask Ny Nxh fVal, h_y_of N L, h_x_of N L, L⟩

/-- Normal termination of `build_problem_half`: every scalar division it
executes has a nonzero divisor, in evaluation order: `L / (Ny - 1)` (line
16), the divisions by `h_y` (lines 43-44) and the division by `h_x` (line
45); the division in `h_x` itself (line 18) is guarded by `Nx_half > 1`.
For `N = 0` the source instead fails indexing `T[0, :]` into a 0-row array;
there `nx_half 0 = 1` forces `h_x_of 0 L = 0`, so `build_ok` is false for
every input on which the Python builder raises. -/
def build_ok (N : ℕ) (L : ℚ) : Prop :=
  ((N : ℚ) - 1 ≠ 0) ∧ h_y_of N L ≠ 0 ∧ h_x_of N L ≠ 0

/-- The update mask `var` (lines 101-105): complement of `fixed` with the
symmetry column 0, bottom row 0, top row `Ny-1` and outer-wall column `Nx-1`
forced to `false`. -/
def var_mask (Ny Nx : ℕ) (fixed : ℕ → ℕ → Bool) (j i : ℕ) : Bool :=
  !fixed j i && !(i == 0) && !(j == 0) && !(j == Ny - 1) && !(i == Nx - 1)

/-- The five-point average `0.25 * (T[j-1,i] + T[j+1,i] + T[j,i-1] + T[j,i+1])`
read from the pre-update grid (line 114). -/
def avg_val (t : ℕ → ℕ → ℚ) (j i : ℕ) : ℚ :=
  1/4 * (t (j-1) i + t (j+1) i + t j (i-1) + t j (i+1))

/-- Value of cell `(j, i)` of `T_new` after the three sequential writes of the
loop body: the masked average write `T_new[interior][mask] = avg[mask]`
(lines 114-117; on in-range cells `var` true already implies interior), the
centreline copy `T_new[:, 0] = T_new[:, 1]` (line 120), and the re-assertion
`T_new[fixed] = T[fixed]` (line 123), which is last and therefore wins. -/
def step_val (Ny Nx : ℕ) (fixed : ℕ → ℕ → Bool) (t : ℕ → ℕ → ℚ) (j i : ℕ) : ℚ :=
  let a : ℕ → ℕ → ℚ := fun j i =>
    if var_mask Ny Nx fixed j i then avg_val t j i else t j i
  let b : ℕ → ℕ → ℚ := fun j i => if i = 0 then a j 1 else a j i
  if fixed j i then t j i else b j i

/-- One Jacobi sweep materialised as the new array `T_new`, with the shape
`Ny, Nx = T.shape` read off the current grid (line 98). -/
def stepGrid (fixed : Mask) (T : Grid) : Grid :=
  mkGrid T.length (T.headD []).length
    (step_val T.length (T.headD []).length (mget fixed) (gget T))

/-- Convergence metric (line 126):
`np.max(np.abs(T_new - T)[var]) if np.any(var) else 0.0`.  The fold starts at
0; every contribution is an absolute value, hence nonnegative, so the fold
equals the numpy maximum when `var` has a true cell and 0 otherwise. -/
def max_change (Ny Nx : ℕ) (var : ℕ → ℕ → Bool) (told tnew : ℕ → ℕ → ℚ) : ℚ :=
  (List.range Ny).foldr
    (fun j acc =>
      (List.range Nx).foldr
        (fun i acc2 => if var j i then max |tnew j i - told j i| acc2 else acc2)
        acc)
    0

/-- Convergence metric of the sweep applied to the current grid `T`. -/
def metric_of (fixed : Mask) (T : Grid) : ℚ :=
  max_change T.length (T.headD []).length
    (var_mask T.length (T.headD []).length (mget fixed))
    (gget T) (gget (stepGrid fixed T))

/-- The `while True` loop of the solver (lines 111-141), with fuel.  Each
pass computes `T_new`, the metric, increments the epoch counter and returns
`(T, epochs, max_change)` when `max_change < delta or epochs >= max_iters`
(line 138); the cadence-gated printing and CSV snapshots (lines 131-136) are
out-of-scope side effects with no influence on the state.  The fuel-0 branch
is unreachable from `jacobi_laplace_half_with_snapshots`. -/
def jacobi_loop (fixed : Mask) (delta : ℚ) (max_iters : ℕ) :
    ℕ → Grid → ℕ → Grid × ℕ × ℚ
  | 0, T, epochs => (T, epochs, 0)
  | fuel + 1, T, epochs =>
    if metric_of fixed T < delta ∨ epochs + 1 ≥ max_iters then
      (stepGrid fixed T, epochs + 1, metric_of fixed T)
    else jacobi_loop fixed delta max_iters fuel (stepGrid fixed T) (epochs + 1)

/-- `jacobi_laplace_half_with_snapshots` (lines 87-141): run the loop from
epoch 0 on a copy of the initial grid.  `delta` and `max_iters` keep their
roles; the reporting/snapshot cadences and output naming are omitted as
external collaborators. -/
def jacobi_laplace_half_with_snapshots (T : Grid) (fixed : Mask) (delta : ℚ)
    (max_iters : ℕ) : Grid × ℕ × ℚ :=
  jacobi_loop fixed delta max_iters (max_iters + 1) T 0

/-- `mirror_full_from_half` (lines 54-57): reverse the half grid without its
first column and prepend it, row by row. -/
def mirror_full_from_half (T_half : Grid) : Grid :=
  T_half.map fun row => (row.drop 1).reverse ++ row

/-- Following the spec's words for claim C7 only (refinement comparison):
the mid-height row, `round` of `(L/2) / h_y`. -/
def spec_mid_row (N : ℕ) (L : ℚ) : ℤ := pyRound ((L / 2) / h_y_of N L)

/-- Following the spec's words for claim C7 only: the claimed lower row of
the inner hot square, the mid-height row minus the rounded row offset
`round((L_inner/2) / h_y)`. -/
def spec_inner_j_low (N : ℕ) (L L_inner : ℚ) : ℤ :=
  spec_mid_row N L - pyRound ((L_inner / 2) / h_y_of N L)

/-- Following the spec's words for claim C7 only: the claimed upper row of
the inner hot square, the mid-height row plus the rounded row offset. -/
def spec_inner_j_high (N : ℕ) (L L_inner : ℚ) : ℤ :=
  spec_mid_row N L + pyRound ((L_inner / 2) / h_y_of N L)

/-- Scenario A configuration: `N = 5`, `L = 1`, all three temperatures and the
initial guess equal to 50, remaining parameters at the source defaults
(`L_inner = 3`, `bath_height = None`, `bath_fraction = 4/9`). -/
def cfgA : BuildOut := build_problem_half 5 1 3 50 50 50 50 none (4/9)

/-- A degenerate-uniform configuration with a nonempty update mask:
`N = 5`, `L = 1`, `L_inner = 0`, all temperatures and the guess 50. -/
def cfg5z : BuildOut := build_problem_half 5 1 0 50 50 50 50 none (4/9)

/-- A size-zero inner square with distinct temperatures: `N = 5`, `L = 1`,
`L_inner = 0`, `T_top = 100`, `T_bottom = 32`, `T_inner = 212`, guess 90. -/
def cfgB : BuildOut := build_problem_half 5 1 0 100 32 212 90 none (4/9)

/-- Rounding-tie configuration for claim C7: `N = 3`, `L = 1`,
`L_inner = 1/2`, source-default temperatures. -/
def cfg3 : BuildOut := build_problem_half 3 1 (1/2) 100 32 212 90 none (4/9)

/-! Access and shape lemmas for materialised grids and masks. -/

theorem gget_mkGrid (Ny Nx : ℕ) (f : ℕ → ℕ → ℚ) {j i : ℕ} (hj : j < Ny)
    (hi : i < Nx) : gget (mkGrid Ny Nx f) j i = f j i := by
  simp [gget, mkGrid, List.getD_eq_getElem?_getD, List.getElem?_map,
    List.getElem?_range, hj, hi]

theorem mget_mkMask (Ny Nx : ℕ) (f : ℕ → ℕ → Bool) {j i : ℕ} (hj : j < Ny)
    (hi : i < Nx) : mget (mkMask Ny Nx f) j i = f j i := by
  simp [mget, mkMask, List.getD_eq_getElem?_getD, List.getElem?_map,
    List.getElem?_range, hj, hi]

theorem rect_map_range {α : Type} (Ny Nx : ℕ) (g : ℕ → ℕ → α) :
    Rect Ny Nx ((List.range Ny).map fun j => (List.range Nx).map fun i => g j i) := by
  refine ⟨by simp, ?_⟩
  intro r hr
  simp only [List.mem_map] at hr
  obtain ⟨a, -, rfl⟩ := hr
  simp

theorem rect_mkGrid (Ny Nx : ℕ) (f : ℕ → ℕ → ℚ) : Rect Ny Nx (mkGrid Ny Nx f) :=
  rect_map_range Ny Nx f

theorem rect_mkMask (Ny Nx : ℕ) (f : ℕ → ℕ → Bool) : Rect Ny Nx (mkMask Ny Nx f) :=
  rect_map_range Ny Nx f

theorem rect_headD {α : Type} {Ny Nx : ℕ} {T : List (List α)} (h : Rect Ny Nx T)
    (hNy : 0 < Ny) : (T.headD []).length = Nx := by
  obtain ⟨h1, h2⟩ := h
  cases T with
  | nil => simp at h1; omega
  | cons r l => exact h2 r (by simp)

theorem mget_true_of_rect {Ny Nx : ℕ} {M : Mask} (h : Rect Ny Nx M) {j i : ℕ}
    (ht : mget M j i = true) : j < Ny ∧ i < Nx := by
  obtain ⟨h1, h2⟩ := h
  have hj : j < M.length := by
    by_contra hj
    have hrow : M.getD j [] = [] := by
      rw [List.getD_eq_getElem?_getD, List.getElem?_eq_none (by omega)]
      rfl
    rw [mget, hrow] at ht
    simp at ht
  have hrow : M.getD j [] = M[j] := by
    rw [List.getD_eq_getElem?_getD, List.getElem?_eq_getElem hj]
    rfl
  have hlen : (M[j]).length = Nx := h2 _ (List.getElem_mem hj)
  have hi : i < Nx := by
    by_contra hi
    rw [mget, hrow, List.getD_eq_getElem?_getD,
      List.getElem?_eq_none (by omega)] at ht
    simp at ht
  exact ⟨by omega, hi⟩

theorem rect_stepGrid {Ny Nx : ℕ} {fx : Mask} {T : Grid} (h : Rect Ny Nx T) :
    Rect Ny Nx (stepGrid fx T) := by
  rcases Nat.eq_zero_or_pos Ny with hNy | hNy
  · subst hNy
    have hT : T = [] := List.length_eq_zero.mp h.1
    subst hT
    exact ⟨by simp [stepGrid, mkGrid], by simp [stepGrid, mkGrid]⟩
  · rw [stepGrid, h.1, rect_headD h hNy]
    exact rect_mkGrid Ny Nx _

theorem rect_iterate {Ny Nx : ℕ} (fx : Mask) {T : Grid} (h : Rect Ny Nx T)
    (k : ℕ) : Rect Ny Nx ((stepGrid fx)^[k] T) := by
  induction k with
  | zero => simpa using h
  | succ n ih => rw [Function.iterate_succ_apply']; exact rect_stepGrid ih

theorem gget_stepGrid (fx : Mask) (T : Grid) {j i : ℕ} (hj : j < T.length)
    (hi : i < (T.headD []).length) :
    gget (stepGrid fx T) j i =
      step_val T.length (T.headD []).length (mget fx) (gget T) j i :=
  gget_mkGrid _ _ _ hj hi

theorem step_val_fixed {Ny Nx : ℕ} {fixed : ℕ → ℕ → Bool} {t : ℕ → ℕ → ℚ}
    {j i : ℕ} (h : fixed j i = true) : step_val Ny Nx fixed t j i = t j i := by
  simp [step_val, h]

theorem gget_iterate_fixed {Ny Nx : ℕ} {fx : Mask} {T : Grid}
    (hT : Rect Ny Nx T) {j i : ℕ} (hj : j < Ny) (hi : i < Nx)
    (hf : mget fx j i = true) (k : ℕ) :
    gget ((stepGrid fx)^[k] T) j i = gget T j i := by
  induction k with
  | zero => rfl
  | succ n ih =>
    rw [Function.iterate_succ_apply']
    have hrect := rect_iterate fx hT n
    rw [gget_stepGrid fx _ (by rw [hrect.1]; exact hj)
        (by rw [rect_headD hrect (by omega)]; exact hi)]
    rw [hrect.1, rect_headD hrect (by omega), step_val_fixed hf]
    exact ih

/-! Fold lemmas for the convergence metric. -/

theorem foldr_ge_of_step {α : Type} (l : List α) (step : α → ℚ → ℚ)
    (hstep : ∀ x acc, acc ≤ step x acc) (acc : ℚ) :
    acc ≤ l.foldr step acc := by
  induction l with
  | nil => exact le_refl acc
  | cons x xs ih => exact le_trans ih (hstep x (xs.foldr step acc))

theorem foldr_id_of_step {α : Type} (l : List α) (step : α → ℚ → ℚ)
    (hstep : ∀ x ∈ l, ∀ acc, step x acc = acc) (acc : ℚ) :
    l.foldr step acc = acc := by
  induction l with
  | nil => rfl
  | cons x xs ih =>
    rw [List.foldr_cons, ih fun y hy => hstep y (by simp [hy]),
      hstep x (by simp)]

theorem max_change_nonneg (Ny Nx : ℕ) (var : ℕ → ℕ → Bool)
    (told tnew : ℕ → ℕ → ℚ) : 0 ≤ max_change Ny Nx var told tnew := by
  unfold max_change
  refine foldr_ge_of_step _ _ (fun j acc => ?_) 0
  refine foldr_ge_of_step _ _ (fun i acc2 => ?_) acc
  by_cases h : var j i
  · rw [if_pos h]; exact le_max_right _ _
  · rw [if_neg h]

theorem max_change_of_no_var (Ny Nx : ℕ) (var : ℕ → ℕ → Bool)
    (told tnew : ℕ → ℕ → ℚ)
    (h : ∀ j, j < Ny → ∀ i, i < Nx → var j i = false) :
    max_change Ny Nx var told tnew = 0 := by
  unfold max_change
  refine foldr_id_of_step _ _ (fun j hj acc => ?_) 0
  refine foldr_id_of_step _ _ (fun i hi acc2 => ?_) acc
  rw [h j (List.mem_range.mp hj) i (List.mem_range.mp hi)]
  simp

/-! Characterisation of the solver loop: it always exits with an epoch count
in `(e, M]`, its result grid is the corresponding sweep iterate, its reported
metric belongs to the final sweep, no strictly earlier sweep metric was below
the threshold, and the cap was reached unless the final metric was below the
threshold. -/

theorem jacobi_loop_char (fx : Mask) (delta : ℚ) (M : ℕ) :
    ∀ fuel e T0, e + fuel = M + 1 → e < M →
      ∃ E, jacobi_loop fx delta M fuel ((stepGrid fx)^[e] T0) e =
          ((stepGrid fx)^[E] T0, E, metric_of fx ((stepGrid fx)^[E-1] T0)) ∧
        e < E ∧ E ≤ M ∧
        (∀ t, e < t → t < E → ¬ metric_of fx ((stepGrid fx)^[t-1] T0) < delta) ∧
        (metric_of fx ((stepGrid fx)^[E-1] T0) < delta ∨ E = M) := by
  intro fuel
  induction fuel with
  | zero => intro e T0 h1 h2; omega
  | succ f ih =>
    intro e T0 h1 h2
    by_cases hc : metric_of fx ((stepGrid fx)^[e] T0) < delta ∨ e + 1 ≥ M
    · refine ⟨e + 1, ?_, by omega, by omega, by intro t ht1 ht2; omega, ?_⟩
      · simp only [jacobi_loop, if_pos hc]
        rw [Function.iterate_succ_apply' (stepGrid fx) e T0]
        simp
      · rcases hc with hc | hc
        · exact Or.inl (by simpa using hc)
        · exact Or.inr (by omega)
    · have hm : ¬ metric_of fx ((stepGrid fx)^[e] T0) < delta :=
        fun h => hc (Or.inl h)
      have hlt : e + 1 < M := by
        by_contra h
        exact hc (Or.inr (by omega))
      obtain ⟨E, heq, hE1, hE2, hE3, hE4⟩ := ih (e + 1) T0 (by omega) (by omega)
      refine ⟨E, ?_, by omega, hE2, ?_, hE4⟩
      · simp only [jacobi_loop, if_neg hc]
        rw [Function.iterate_succ_apply' (stepGrid fx) e T0] at heq
        exact heq
      · intro t ht1 ht2
        rcases Nat.eq_or_lt_of_le (Nat.succ_le_of_lt ht1) with ht | ht
        · have hte : t - 1 = e := by omega
          rw [hte]
          exact hm
        · exact hE3 t (by omega) ht2

/-! Arithmetic lemmas for Python rounding and slice normalisation. -/

theorem pyRound_intCast (z : ℤ) : pyRound (z : ℚ) = z := by
  rw [pyRound, Int.floor_intCast]
  norm_num

theorem pyRound_int_add_half (z : ℤ) :
    pyRound ((z : ℚ) + 1/2) = z ∨ pyRound ((z : ℚ) + 1/2) = z + 1 := by
  have hf : ⌊(z : ℚ) + 1/2⌋ = z := by
    rw [add_comm, Int.floor_add_int]
    norm_num
  rw [pyRound, hf]
  have hr : (z : ℚ) + 1/2 - z = 1/2 := by ring
  rw [hr]
  norm_num
  omega

theorem pyRound_half_pred (N : ℕ) (hN : 3 ≤ N) :
    1 ≤ pyRound (((N : ℚ) - 1) / 2) ∧ pyRound (((N : ℚ) - 1) / 2) ≤ (N : ℤ) - 2 := by
  rcases Nat.even_or_odd N with ⟨m, hm⟩ | ⟨m, hm⟩
  · have hm2 : 2 ≤ m := by omega
    have hq : ((N : ℚ) - 1) / 2 = ((m : ℤ) - 1 : ℤ) + 1/2 := by
      subst hm
      push_cast
      ring
    rw [hq]
    rcases pyRound_int_add_half ((m : ℤ) - 1) with h | h <;> rw [h] <;>
      constructor <;> [skip; skip; skip; skip] <;> omega
  · have hq : ((N : ℚ) - 1) / 2 = ((m : ℤ) : ℚ) := by
      subst hm
      push_cast
      ring
    rw [hq, pyRound_intCast]
    omega

theorem pySliceBound_le (n : ℕ) (a : ℤ) : pySliceBound n a ≤ n := by
  unfold pySliceBound
  split <;> omega

theorem pySliceBound_of_mem (n : ℕ) (a : ℤ) (h0 : 0 ≤ a) (hn : a ≤ (n : ℤ)) :
    pySliceBound n a = a.toNat := by
  unfold pySliceBound
  rw [if_neg (by omega)]
  omega

/-! Projections of the builder output. -/

theorem build_T_eq (N : ℕ) (L L_inner T_top T_bottom T_inner init_guess : ℚ)
    (bath_height : Option ℚ) (bath_fraction : ℚ) :
    (build_problem_half N L L_inner T_top T_bottom T_inner init_guess
        bath_height bath_fraction).T =
      mkGrid N (nx_half N) (fun j i =>
        if pySliceBound N (inner_j_low N L L_inner) ≤ j ∧
            j < pySliceBound N (inner_j_high N L L_inner + 1) ∧
            i < pySliceBound (nx_half N) (inner_i_right N L L_inner + 1) then
          T_inner
        else if i = nx_half N - 1 then
          side_profile L T_top T_bottom (y0_of L bath_height bath_fraction)
            (h_y_of N L) j
        else if j = N - 1 then T_top
        else if j = 0 then T_bottom
        else init_guess) := rfl

theorem build_fixed_eq (N : ℕ) (L L_inner T_top T_bottom T_inner init_guess : ℚ)
    (bath_height : Option ℚ) (bath_fraction : ℚ) :
    (build_problem_half N L L_inner T_top T_bottom T_inner init_guess
        bath_height bath_fraction).fixed =
      mkMask N (nx_half N) (fun j i =>
        decide (pySliceBound N (inner_j_low N L L_inner) ≤ j ∧
            j < pySliceBound N (inner_j_high N L L_inner + 1) ∧
            i < pySliceBound (nx_half N) (inner_i_right N L L_inner + 1)) ||
          decide (i = nx_half N - 1) || decide (j = N - 1) ||
          decide (j = 0)) := rfl

theorem build_h_y_eq (N : ℕ) (L L_inner T_top T_bottom T_inner init_guess : ℚ)
    (bath_height : Option ℚ) (bath_fraction : ℚ) :
    (build_problem_half N L L_inner T_top T_bottom T_inner init_guess
        bath_height bath_fraction).h_y = h_y_of N L := rfl

theorem build_T_rect (N : ℕ) (L L_inner T_top T_bottom T_inner init_guess : ℚ)
    (bath_height : Option ℚ) (bath_fraction : ℚ) :
    Rect N (nx_half N)
      (build_problem_half N L L_inner T_top T_bottom T_inner init_guess
        bath_height bath_fraction).T := by
  rw [build_T_eq]
  exact rect_mkGrid _ _ _

theorem build_fixed_rect (N : ℕ) (L L_inner T_top T_bottom T_inner init_guess : ℚ)
    (bath_height : Option ℚ) (bath_fraction : ℚ) :
    Rect N (nx_half N)
      (build_problem_half N L L_inner T_top T_bottom T_inner init_guess
        bath_height bath_fraction).fixed := by
  rw [build_fixed_eq]
  exact rect_mkMask _ _ _

/-! Row-level lemmas for the mirroring operator. -/

theorem mirror_row_len (r : List ℚ) (Nx : ℕ) (hr : r.length = Nx) (hNx : 1 ≤ Nx) :
    ((r.drop 1).reverse ++ r).length = 2 * Nx - 1 := by
  simp [hr]
  omega

theorem mirror_row_get_left (r : List ℚ) (Nx : ℕ) (hr : r.length = Nx) {i : ℕ}
    (hi : i < Nx - 1) :
    ((r.drop 1).reverse ++ r).getD i 0 = r.getD (Nx - 1 - i) 0 := by
  have hdl : (r.drop 1).length = Nx - 1 := by simp [hr]
  have hlen : (r.drop 1).reverse.length = Nx - 1 := by simp [hr]
  have h1 : ((r.drop 1).reverse ++ r).getD i 0 = (r.drop 1).reverse.getD i 0 := by
    rw [List.getD_eq_getElem?_getD, List.getElem?_append,
      if_pos (show i < (r.drop 1).reverse.length by omega),
      ← List.getD_eq_getElem?_getD]
  have h2 : (r.drop 1).reverse.getD i 0 = (r.drop 1).getD (Nx - 2 - i) 0 := by
    rw [List.getD_eq_getElem?_getD, List.getElem?_reverse (by omega),
      ← List.getD_eq_getElem?_getD]
    congr 1
    omega
  have h3 : (r.drop 1).getD (Nx - 2 - i) 0 = r.getD (1 + (Nx - 2 - i)) 0 := by
    rw [List.getD_eq_getElem?_getD, List.getElem?_drop,
      ← List.getD_eq_getElem?_getD]
  rw [h1, h2, h3]
  congr 1
  omega

theorem mirror_row_get_right (r : List ℚ) (Nx : ℕ) (hr : r.length = Nx) {i : ℕ}
    (hi : Nx - 1 ≤ i) :
    ((r.drop 1).reverse ++ r).getD i 0 = r.getD (i - (Nx - 1)) 0 := by
  have hlen : (r.drop 1).reverse.length = Nx - 1 := by simp [hr]
  rw [List.getD_eq_getElem?_getD, List.getElem?_append,
    if_neg (by omega), ← List.getD_eq_getElem?_getD, hlen]

theorem mirror_row_symm (r : List ℚ) (Nx : ℕ) (hr : r.length = Nx) (hNx : 1 ≤ Nx)
    {i : ℕ} (hi : i < 2 * Nx - 1) :
    ((r.drop 1).reverse ++ r).getD i 0 =
      ((r.drop 1).reverse ++ r).getD (2 * Nx - 2 - i) 0 := by
  rcases Nat.lt_or_ge i (Nx - 1) with hlt | hge
  · rw [mirror_row_get_left r Nx hr hlt,
      mirror_row_get_right r Nx hr (by omega)]
    congr 1
    omega
  · rcases Nat.lt_or_ge (2 * Nx - 2 - i) (Nx - 1) with hlt2 | hge2
    · rw [mirror_row_get_right r Nx hr hge,
        mirror_row_get_left r Nx hr hlt2]
      congr 1
      omega
    · rw [mirror_row_get_right r Nx hr hge,
        mirror_row_get_right r Nx hr hge2]
      congr 1
      omega

theorem mirror_getD_row (T : Grid) (j : ℕ) :
    (mirror_full_from_half T).getD j [] =
      ((T.getD j []).drop 1).reverse ++ T.getD j [] := by
  by_cases hj : j < T.length
  · rw [mirror_full_from_half, List.getD_eq_getElem?_getD,
      List.getElem?_map, List.getElem?_eq_getElem hj]
    rw [List.getD_eq_getElem?_getD, List.getElem?_eq_getElem hj]
    rfl
  · rw [mirror_full_from_half, List.getD_eq_getElem?_getD,
      List.getElem?_eq_none (by simpa using Nat.le_of_not_lt hj)]
    rw [List.getD_eq_getElem?_getD, List.getElem?_eq_none (by omega)]
    rfl

/-! Unfolded form of one sweep at a single cell. -/

theorem step_val_def (Ny Nx : ℕ) (fixed : ℕ → ℕ → Bool) (t : ℕ → ℕ → ℚ)
    (j i : ℕ) :
    step_val Ny Nx fixed t j i =
      if fixed j i = true then t j i
      else if i = 0 then
        (if var_mask Ny Nx fixed j 1 = true then avg_val t j 1 else t j 1)
      else
        (if var_mask Ny Nx fixed j i = true then avg_val t j i else t j i) :=
  rfl

theorem step_val_c2 (Ny Nx : ℕ) (fixed : ℕ → ℕ → Bool) (t : ℕ → ℕ → ℚ)
    (j i : ℕ) :
    step_val Ny Nx fixed t j i =
      if var_mask Ny Nx fixed j i = true then
        (t (j-1) i + t (j+1) i + t j (i-1) + t j (i+1)) / 4
      else if i = 0 ∧ fixed j 0 = false then step_val Ny Nx fixed t j 1
      else t j i := by
  by_cases hfix : fixed j i = true
  · conv_lhs => rw [step_val_def, if_pos hfix]
    have hvar : var_mask Ny Nx fixed j i = false := by simp [var_mask, hfix]
    rw [hvar, if_neg (show ¬ (false = true) by simp)]
    by_cases hi0 : i = 0
    · subst hi0
      rw [if_neg (show ¬ ((0:ℕ) = 0 ∧ fixed j 0 = false) from
        fun h => absurd h.2 (by simp [hfix]))]
    · rw [if_neg (fun h => hi0 h.1)]
  · have hfixf : fixed j i = false := by simpa using hfix
    conv_lhs => rw [step_val_def, if_neg hfix]
    by_cases hi0 : i = 0
    · subst hi0
      conv_lhs => rw [if_pos rfl]
      have hv0 : var_mask Ny Nx fixed j 0 = false := by simp [var_mask]
      rw [hv0, if_neg (show ¬ (false = true) by simp),
        if_pos (show (0:ℕ) = 0 ∧ fixed j 0 = false from ⟨rfl, hfixf⟩)]
      rw [step_val_def]
      by_cases hf1 : fixed j 1 = true
      · rw [if_pos hf1]
        have hv1 : var_mask Ny Nx fixed j 1 = false := by simp [var_mask, hf1]
        rw [hv1, if_neg (show ¬ (false = true) by simp)]
      · rw [if_neg hf1, if_neg (show ¬ ((1:ℕ) = 0) by omega)]
    · conv_lhs => rw [if_neg hi0]
      by_cases hv : var_mask Ny Nx fixed j i = true
      · rw [if_pos hv, if_pos hv, avg_val]
        ring
      · rw [if_neg hv, if_neg hv, if_neg (fun h => hi0 h.1)]

/-- C2: one solver sweep maps the current grid to the next grid so that a
cell with `var` true receives the unweighted average of its four orthogonal
neighbours read from the pre-update grid; a cell outside column 0 with `var`
false keeps its pre-update value (this covers fixed cells, whose value is
re-asserted from the pre-update grid); and a non-fixed cell in column 0
equals the post-update value of the adjacent cell in column 1. -/
theorem C2_step_update (T : Grid) (fx : Mask) (j i : ℕ) (hj : j < T.length)
    (hi : i < (T.headD []).length) (hNx : 2 ≤ (T.headD []).length) :
    gget (stepGrid fx T) j i =
      if var_mask T.length (T.headD []).length (mget fx) j i = true then
        (gget T (j-1) i + gget T (j+1) i + gget T j (i-1) + gget T j (i+1)) / 4
      else if i = 0 ∧ mget fx j 0 = false then gget (stepGrid fx T) j 1
      else gget T j i := by
  rw [gget_stepGrid fx T hj hi,
    gget_stepGrid fx T hj (show 1 < (T.headD []).length by omega)]
  exact step_val_c2 _ _ _ _ j i

/-- C3: mirroring a half grid whose rows all have width `Nx ≥ 1` yields a
grid with the same number of rows, each of odd width `W = 2*Nx - 1`, and
the result is symmetric about its central column:
`full[j, i] = full[j, (W - 1) - i]`. -/
theorem C3_mirror_symmetric (T : Grid) (Nx j i : ℕ) (hNx : 1 ≤ Nx)
    (hT : ∀ r ∈ T, r.length = Nx) (hi : i < 2 * Nx - 1) :
    Rect T.length (2 * Nx - 1) (mirror_full_from_half T) ∧ Odd (2 * Nx - 1) ∧
    gget (mirror_full_from_half T) j i =
      gget (mirror_full_from_half T) j (2 * Nx - 1 - 1 - i) := by
  refine ⟨⟨by simp [mirror_full_from_half], ?_⟩, ⟨Nx - 1, by omega⟩, ?_⟩
  · intro r hr
    rw [mirror_full_from_half] at hr
    simp only [List.mem_map] at hr
    obtain ⟨s, hs, rfl⟩ := hr
    exact mirror_row_len s Nx (hT s hs) hNx
  · rw [gget, gget, mirror_getD_row]
    have hidx : 2 * Nx - 1 - 1 - i = 2 * Nx - 2 - i := by omega
    rw [hidx]
    by_cases hj : j < T.length
    · have hrow : T.getD j [] = T[j] := by
        rw [List.getD_eq_getElem?_getD, List.getElem?_eq_getElem hj]
        rfl
      rw [hrow]
      exact mirror_row_symm T[j] Nx (hT _ (List.getElem_mem hj)) hNx hi
    · have hrow : T.getD j [] = [] := by
        rw [List.getD_eq_getElem?_getD, List.getElem?_eq_none (by omega)]
        rfl
      rw [hrow]
      rfl

/-- C9: mirroring a half grid whose rows all have width `Nx` and then
extracting columns `Nx - 1` through `W - 1` of the result reproduces the
half grid exactly. -/
theorem C9_mirror_roundtrip (T : Grid) (Nx : ℕ) (hT : ∀ r ∈ T, r.length = Nx) :
    (mirror_full_from_half T).map (fun r => r.drop (Nx - 1)) = T := by
  rw [mirror_full_from_half, List.map_map]
  have h : ∀ r ∈ T,
      ((fun r : List ℚ => r.drop (Nx - 1)) ∘
        fun row => (row.drop 1).reverse ++ row) r = id r := by
    intro r hr
    simp only [Function.comp_apply, id_eq]
    have hlen : (r.drop 1).reverse.length = Nx - 1 := by simp [hT r hr]
    rw [← hlen, List.drop_left]
  rw [List.map_congr_left h, List.map_id]

/-- C4: with an iteration cap `max_iters ≥ 1` the solver always returns a
triple whose epoch count lies in `[1, max_iters]`; the run ends with either
the final metric below `delta` or the epoch count equal to the cap; and it
ends strictly before the cap exactly when some sweep strictly before the
cap-th produces a metric below `delta`. -/
theorem C4_termination (T : Grid) (fx : Mask) (delta : ℚ) (M : ℕ)
    (hM : 1 ≤ M) :
    1 ≤ (jacobi_laplace_half_with_snapshots T fx delta M).2.1 ∧
    (jacobi_laplace_half_with_snapshots T fx delta M).2.1 ≤ M ∧
    ((jacobi_laplace_half_with_snapshots T fx delta M).2.2 < delta ∨
      (jacobi_laplace_half_with_snapshots T fx delta M).2.1 = M) ∧
    ((jacobi_laplace_half_with_snapshots T fx delta M).2.1 < M ↔
      ∃ k, 1 ≤ k ∧ k < M ∧ metric_of fx ((stepGrid fx)^[k - 1] T) < delta) := by
  obtain ⟨E, heq, hE1, hE2, hE3, hE4⟩ :=
    jacobi_loop_char fx delta M (M + 1) 0 T (by omega) (by omega)
  rw [Function.iterate_zero_apply] at heq
  unfold jacobi_laplace_half_with_snapshots
  rw [heq]
  dsimp only
  refine ⟨by omega, hE2, hE4, ?_, ?_⟩
  · intro hEM
    rcases hE4 with hm | hm
    · exact ⟨E, by omega, hEM, hm⟩
    · omega
  · rintro ⟨k, hk1, hk2, hkm⟩
    by_contra hnot
    have hEM : E = M := by omega
    exact hE3 k (by omega) (by omega) hkm

/-- C5 (amended): the convergence metric of every sweep is nonnegative, and
it is 0 whenever the update mask has no true cell.  The converse direction
of the original claim is false: see the counterexample. -/
theorem C5_metric_nonneg_amended (fx : Mask) (T : Grid) :
    0 ≤ metric_of fx T ∧
    ((∀ j, j < T.length → ∀ i, i < (T.headD []).length →
        var_mask T.length (T.headD []).length (mget fx) j i = false) →
      metric_of fx T = 0) :=
  ⟨max_change_nonneg _ _ _ _ _, fun h => max_change_of_no_var _ _ _ _ _ h⟩

/-- C5 counterexample: for the builder output with `N = 5`, `L = 1`,
`L_inner = 0` and all temperatures and the initial guess equal to 50, the
update mask has a true cell at `(1, 1)` and yet the first sweep's metric is
exactly 0, so "`max_change = 0` exactly when VariableMask has no true cells"
fails in the only-if direction. -/
theorem C5_metric_counterexample :
    var_mask 5 3 (mget cfg5z.fixed) 1 1 = true ∧
    metric_of cfg5z.fixed cfg5z.T = 0 := by
  constructor
  · norm_num [cfg5z, build_problem_half, mkMask, mget, var_mask, nx_half,
      inner_j_low, inner_j_high, inner_i_right, pyRound, pySliceBound,
      h_y_of, h_x_of, List.range_succ]
  · norm_num [cfg5z, build_problem_half, mkGrid, mkMask, gget, mget, stepGrid,
      step_val, avg_val, var_mask, metric_of, max_change, nx_half,
      inner_j_low, inner_j_high, inner_i_right, pyRound, pySliceBound,
      h_y_of, h_x_of, y0_of, side_profile, List.range_succ]

/-- C8 counterexample: for `N = 1` (an `N ≥ 1` input, with the source default
`L = 9`) the builder does divide by zero: `h_y = L / (N - 1)` has divisor 0,
so `build_problem_half` raises before ever reaching the guarded `h_x`
definition; the claim that it returns normally for every `N ≥ 1` is false. -/
theorem C8_div_by_zero_counterexample : (1:ℕ) ≥ 1 ∧ ¬ build_ok 1 9 := by
  refine ⟨le_refl 1, ?_⟩
  norm_num [build_ok, h_y_of, h_x_of, nx_half]

/-- C8 (amended): for every `N ≥ 2` and `L ≠ 0` the builder performs no
division by zero and returns normally, and `Nx_half > 1` there, so the
guarded degenerate case `Nx_half = 1` only arises for `N ≤ 1`, where the
earlier computation `h_y = L / (N - 1)` has already divided by zero. -/
theorem C8_no_division_amended (N : ℕ) (L : ℚ) (hN : 2 ≤ N) (hL : L ≠ 0) :
    build_ok N L ∧ 1 < nx_half N := by
  have hnx : 1 < nx_half N := by unfold nx_half; omega
  have hN1 : ((N : ℚ) - 1) ≠ 0 := by
    have h2 : (2 : ℚ) ≤ (N : ℚ) := by exact_mod_cast hN
    intro h
    have : (N : ℚ) = 1 := by linarith
    linarith
  refine ⟨⟨hN1, div_ne_zero hL hN1, ?_⟩, hnx⟩
  rw [h_x_of, if_pos hnx]
  have hnx2 : ((nx_half N : ℚ) - 1) ≠ 0 := by
    have h2 : (2 : ℚ) ≤ ((nx_half N : ℚ)) := by exact_mod_cast hnx
    intro h
    have : ((nx_half N : ℚ)) = 1 := by linarith
    linarith
  exact div_ne_zero (div_ne_zero hL two_ne_zero) hnx2

/-! The inner hot square block of the builder. -/

theorem inner_block_assigned (N : ℕ)
    (L L_inner T_top T_bottom T_inner init_guess : ℚ)
    (bath_height : Option ℚ) (bath_fraction : ℚ) (j i : ℕ)
    (hjlo : pySliceBound N (inner_j_low N L L_inner) ≤ j)
    (hjhi : j < pySliceBound N (inner_j_high N L L_inner + 1))
    (hihi : i < pySliceBound (nx_half N) (inner_i_right N L L_inner + 1)) :
    gget (build_problem_half N L L_inner T_top T_bottom T_inner init_guess
        bath_height bath_fraction).T j i = T_inner ∧
    mget (build_problem_half N L L_inner T_top T_bottom T_inner init_guess
        bath_height bath_fraction).fixed j i = true := by
  have hj : j < N := lt_of_lt_of_le hjhi (pySliceBound_le _ _)
  have hi : i < nx_half N := lt_of_lt_of_le hihi (pySliceBound_le _ _)
  constructor
  · rw [build_T_eq, gget_mkGrid _ _ _ hj hi, if_pos ⟨hjlo, hjhi, hihi⟩]
  · rw [build_fixed_eq, mget_mkMask _ _ _ hj hi]
    simp [hjlo, hjhi, hihi]

/-- C7 counterexample: with `N = 3`, `L = 1`, `L_inner = 1/2` (and the source
default temperatures), the code's lower inner-square row is
`round((L/2 - L_inner/2) / h_y) = round(1/2) = 0`, while the spec's
"mid-height row minus round((L_inner/2)/h_y)" is `1 - round(1/2) = 1`; the
builder in fact writes `T_inner = 212` into cell `(0, 0)`, a cell outside
the claimed row range `[1, 1]`, so the claimed block is not the occupied
block. -/
theorem C7_rounding_counterexample :
    inner_j_low 3 1 (1/2) = 0 ∧ spec_inner_j_low 3 1 (1/2) = 1 ∧
    gget cfg3.T 0 0 = 212 := by
  refine ⟨?_, ?_, ?_⟩
  · norm_num [inner_j_low, pyRound, h_y_of]
  · norm_num [spec_inner_j_low, spec_mid_row, pyRound, h_y_of]
  · norm_num [cfg3, build_problem_half, mkGrid, gget, nx_half, inner_j_low,
      inner_j_high, inner_i_right, pyRound, pySliceBound, h_y_of, h_x_of,
      List.range_succ]

/-- C7 (amended): the inner hot square occupies the rows
`round((L/2 - L_inner/2)/h_y)` through `round((L/2 + L_inner/2)/h_y)` — the
rounding is applied to the absolute positions of the square's edges, not to
a half-extent offset from the mid-height row — together with columns 0
through `round((L_inner/2)/h_x)`, all as Python slice bounds (negative
values count from the end, and both ends clamp to the axis); every cell of
that block is assigned `T_inner` and marked fixed in the builder's output. -/
theorem C7_inner_rows_amended (N : ℕ)
    (L L_inner T_top T_bottom T_inner init_guess : ℚ)
    (bath_height : Option ℚ) (bath_fraction : ℚ) (j i : ℕ)
    (hjlo : pySliceBound N (inner_j_low N L L_inner) ≤ j)
    (hjhi : j < pySliceBound N (inner_j_high N L L_inner + 1))
    (hihi : i < pySliceBound (nx_half N) (inner_i_right N L L_inner + 1)) :
    gget (build_problem_half N L L_inner T_top T_bottom T_inner init_guess
        bath_height bath_fraction).T j i = T_inner ∧
    mget (build_problem_half N L L_inner T_top T_bottom T_inner init_guess
        bath_height bath_fraction).fixed j i = true :=
  inner_block_assigned N L L_inner T_top T_bottom T_inner init_guess
    bath_height bath_fraction j i hjlo hjhi hihi

/-- C1: for every builder output (any inputs on which the builder returns),
any threshold and any cap `max_iters ≥ 1`, every cell marked fixed holds its
builder value in the grid of every epoch `k` of the run and in the final
grid the solver returns. -/
theorem C1_fixed_cells_invariant (N : ℕ)
    (L L_inner T_top T_bottom T_inner init_guess : ℚ)
    (bath_height : Option ℚ) (bath_fraction : ℚ) (hok : build_ok N L)
    (delta : ℚ) (max_iters : ℕ) (hM : 1 ≤ max_iters) (k j i : ℕ)
    (hf : mget (build_problem_half N L L_inner T_top T_bottom T_inner
        init_guess bath_height bath_fraction).fixed j i = true) :
    gget ((stepGrid (build_problem_half N L L_inner T_top T_bottom T_inner
          init_guess bath_height bath_fraction).fixed)^[k]
        (build_problem_half N L L_inner T_top T_bottom T_inner init_guess
          bath_height bath_fraction).T) j i =
      gget (build_problem_half N L L_inner T_top T_bottom T_inner init_guess
        bath_height bath_fraction).T j i ∧
    gget (jacobi_laplace_half_with_snapshots
        (build_problem_half N L L_inner T_top T_bottom T_inner init_guess
          bath_height bath_fraction).T
        (build_problem_half N L L_inner T_top T_bottom T_inner init_guess
          bath_height bath_fraction).fixed delta max_iters).1 j i =
      gget (build_problem_half N L L_inner T_top T_bottom T_inner init_guess
        bath_height bath_fraction).T j i := by
  obtain ⟨hj, hi⟩ := mget_true_of_rect
    (build_fixed_rect N L L_inner T_top T_bottom T_inner init_guess
      bath_height bath_fraction) hf
  have hrT := build_T_rect N L L_inner T_top T_bottom T_inner init_guess
    bath_height bath_fraction
  refine ⟨gget_iterate_fixed hrT hj hi hf k, ?_⟩
  obtain ⟨E, heq, -, -, -, -⟩ :=
    jacobi_loop_char
      (build_problem_half N L L_inner T_top T_bottom T_inner init_guess
        bath_height bath_fraction).fixed delta max_iters (max_iters + 1) 0
      (build_problem_half N L L_inner T_top T_bottom T_inner init_guess
        bath_height bath_fraction).T (by omega) (by omega)
  rw [Function.iterate_zero_apply] at heq
  unfold jacobi_laplace_half_with_snapshots
  rw [heq]
  exact gget_iterate_fixed hrT hj hi hf E

/-- C10: with `L_inner = 0` and `N ≥ 3`, on any builder run that returns,
the inner hot square degenerates to the single cell at row
`round((L/2)/h_y)`, column 0 — the Python slice bounds select exactly rows
`[js, js+1)` and columns `[0, 1)` — that cell is assigned `T_inner` and
marked fixed, and its value persists through every sweep `k`. -/
theorem C10_size_zero_inner (N : ℕ) (L T_top T_bottom T_inner init_guess : ℚ)
    (bath_height : Option ℚ) (bath_fraction : ℚ) (hN : 3 ≤ N)
    (hok : build_ok N L) (js k : ℕ)
    (hjs : (js : ℤ) = pyRound ((L / 2) /
      (build_problem_half N L 0 T_top T_bottom T_inner init_guess bath_height
        bath_fraction).h_y)) :
    pySliceBound N (inner_j_low N L 0) = js ∧
    pySliceBound N (inner_j_high N L 0 + 1) = js + 1 ∧
    pySliceBound (nx_half N) (inner_i_right N L 0 + 1) = 1 ∧
    gget (build_problem_half N L 0 T_top T_bottom T_inner init_guess
        bath_height bath_fraction).T js 0 = T_inner ∧
    mget (build_problem_half N L 0 T_top T_bottom T_inner init_guess
        bath_height bath_fraction).fixed js 0 = true ∧
    gget ((stepGrid (build_problem_half N L 0 T_top T_bottom T_inner
          init_guess bath_height bath_fraction).fixed)^[k]
        (build_problem_half N L 0 T_top T_bottom T_inner init_guess
          bath_height bath_fraction).T) js 0 = T_inner := by
  obtain ⟨h1, h2, h3⟩ := hok
  have hL : L ≠ 0 := by
    intro h
    exact h2 (by rw [h_y_of, h, zero_div])
  have hq : (L / 2) / h_y_of N L = ((N : ℚ) - 1) / 2 := by
    rw [h_y_of]
    field_simp
    ring
  obtain ⟨hpr1, hpr2⟩ := pyRound_half_pred N hN
  rw [build_h_y_eq, hq] at hjs
  have hlow : inner_j_low N L 0 = pyRound (((N : ℚ) - 1) / 2) := by
    rw [inner_j_low, show (L / 2 - 0 / 2 : ℚ) = L / 2 by ring, hq]
  have hhigh : inner_j_high N L 0 = pyRound (((N : ℚ) - 1) / 2) := by
    rw [inner_j_high, show (L / 2 + 0 / 2 : ℚ) = L / 2 by ring, hq]
  have hiright : inner_i_right N L 0 = 0 := by
    rw [inner_i_right, show ((0 : ℚ) / 2 / h_x_of N L) = 0 by
      rw [zero_div, zero_div]]
    simpa using pyRound_intCast 0
  have hnx1 : 1 ≤ nx_half N := by unfold nx_half; omega
  have hb1 : pySliceBound N (inner_j_low N L 0) = js := by
    rw [hlow, pySliceBound_of_mem N _ (by omega) (by omega)]
    omega
  have hb2 : pySliceBound N (inner_j_high N L 0 + 1) = js + 1 := by
    rw [hhigh, pySliceBound_of_mem N _ (by omega) (by omega)]
    omega
  have hb3 : pySliceBound (nx_half N) (inner_i_right N L 0 + 1) = 1 := by
    rw [hiright, pySliceBound_of_mem _ _ (by omega) (by omega)]
    rfl
  obtain ⟨hT, hfx⟩ := inner_block_assigned N L 0 T_top T_bottom T_inner
    init_guess bath_height bath_fraction js 0
    (by rw [hb1]) (by rw [hb2]; omega) (by rw [hb3]; omega)
  obtain ⟨hj, hi⟩ := mget_true_of_rect
    (build_fixed_rect N L 0 T_top T_bottom T_inner init_guess bath_height
      bath_fraction) hfx
  refine ⟨hb1, hb2, hb3, hT, hfx, ?_⟩
  exact (gget_iterate_fixed
    (build_T_rect N L 0 T_top T_bottom T_inner init_guess bath_height
      bath_fraction) hj hi hfx k).trans hT

/-- C6 (Scenario A): for `N = 5`, `L = 1`, all three boundary temperatures
and the initial guess equal to 50 (remaining parameters at the source
defaults), the first sweep's metric is 0, so for every threshold
`delta > 0` and every cap the solver terminates at epoch 1 and returns the
builder's initial grid unchanged together with metric 0. -/
theorem C6_scenario_A (delta : ℚ) (max_iters : ℕ) (hd : 0 < delta) :
    metric_of cfgA.fixed cfgA.T = 0 ∧
    jacobi_laplace_half_with_snapshots cfgA.T cfgA.fixed delta max_iters =
      (cfgA.T, 1, 0) := by
  have hstep : stepGrid cfgA.fixed cfgA.T = cfgA.T := by
    norm_num [cfgA, build_problem_half, mkGrid, mkMask, gget, mget, stepGrid,
      step_val, avg_val, var_mask, nx_half, inner_j_low, inner_j_high,
      inner_i_right, pyRound, pySliceBound, h_y_of, h_x_of, y0_of,
      side_profile, List.range_succ]
  have hmc : metric_of cfgA.fixed cfgA.T = 0 := by
    norm_num [cfgA, build_problem_half, mkGrid, mkMask, gget, mget, stepGrid,
      step_val, avg_val, var_mask, metric_of, max_change, nx_half,
      inner_j_low, inner_j_high, inner_i_right, pyRound, pySliceBound,
      h_y_of, h_x_of, y0_of, side_profile, List.range_succ]
  refine ⟨hmc, ?_⟩
  unfold jacobi_laplace_half_with_snapshots
  simp only [jacobi_loop]
  rw [hmc, hstep, if_pos (Or.inl hd)]

/-! Witnesses: each hypothesis-bearing claim theorem applied at a concrete
input, with the hypotheses discharged by evaluation. -/

theorem C1_fixed_cells_invariant_witness :
    build_ok 5 1 ∧
    mget (build_problem_half 5 1 0 100 32 212 90 none (4/9)).fixed 2 0 = true ∧
    (gget ((stepGrid (build_problem_half 5 1 0 100 32 212 90 none
          (4/9)).fixed)^[2]
        (build_problem_half 5 1 0 100 32 212 90 none (4/9)).T) 2 0 =
      gget (build_problem_half 5 1 0 100 32 212 90 none (4/9)).T 2 0 ∧
     gget (jacobi_laplace_half_with_snapshots
        (build_problem_half 5 1 0 100 32 212 90 none (4/9)).T
        (build_problem_half 5 1 0 100 32 212 90 none (4/9)).fixed 1 3).1 2 0 =
      gget (build_problem_half 5 1 0 100 32 212 90 none (4/9)).T 2 0) := by
  have hok : build_ok 5 1 := by norm_num [build_ok, h_y_of, h_x_of, nx_half]
  have hf : mget (build_problem_half 5 1 0 100 32 212 90 none
      (4/9)).fixed 2 0 = true := by
    norm_num [build_problem_half, mkMask, mget, nx_half, inner_j_low,
      inner_j_high, inner_i_right, pyRound, pySliceBound, h_y_of, h_x_of,
      List.range_succ]
  exact ⟨hok, hf, C1_fixed_cells_invariant 5 1 0 100 32 212 90 none (4/9)
    hok 1 3 (by norm_num) 2 2 0 hf⟩

theorem C2_step_update_witness :
    1 < cfg5z.T.length ∧ 1 < (cfg5z.T.headD []).length ∧
    2 ≤ (cfg5z.T.headD []).length ∧
    gget (stepGrid cfg5z.fixed cfg5z.T) 1 1 =
      (if var_mask cfg5z.T.length (cfg5z.T.headD []).length
          (mget cfg5z.fixed) 1 1 = true then
        (gget cfg5z.T (1-1) 1 + gget cfg5z.T (1+1) 1 + gget cfg5z.T 1 (1-1) +
          gget cfg5z.T 1 (1+1)) / 4
      else if (1:ℕ) = 0 ∧ mget cfg5z.fixed 1 0 = false then
        gget (stepGrid cfg5z.fixed cfg5z.T) 1 1
      else gget cfg5z.T 1 1) := by
  have h1 : 1 < cfg5z.T.length := by
    norm_num [cfg5z, build_problem_half, mkGrid]
  have h2 : 1 < (cfg5z.T.headD []).length := by
    norm_num [cfg5z, build_problem_half, mkGrid, nx_half, List.range_succ]
  have h3 : 2 ≤ (cfg5z.T.headD []).length := by
    norm_num [cfg5z, build_problem_half, mkGrid, nx_half, List.range_succ]
  exact ⟨h1, h2, h3, C2_step_update cfg5z.T cfg5z.fixed 1 1 h1 h2 h3⟩

theorem C3_mirror_symmetric_witness :
    1 ≤ 2 ∧ (∀ r ∈ [[(1:ℚ), 2], [3, 4]], r.length = 2) ∧ 0 < 2 * 2 - 1 ∧
    (Rect ([[(1:ℚ), 2], [3, 4]] : Grid).length (2 * 2 - 1)
        (mirror_full_from_half [[(1:ℚ), 2], [3, 4]]) ∧
     Odd (2 * 2 - 1) ∧
     gget (mirror_full_from_half [[(1:ℚ), 2], [3, 4]]) 0 0 =
       gget (mirror_full_from_half [[(1:ℚ), 2], [3, 4]]) 0 (2 * 2 - 1 - 1 - 0)) := by
  have hT : ∀ r ∈ [[(1:ℚ), 2], [3, 4]], r.length = 2 := by
    intro r hr
    simp only [List.mem_cons, List.not_mem_nil, or_false] at hr
    rcases hr with rfl | rfl <;> rfl
  exact ⟨by norm_num, hT, by norm_num,
    C3_mirror_symmetric [[(1:ℚ), 2], [3, 4]] 2 0 0 (by norm_num) hT
      (by norm_num)⟩

theorem C4_termination_witness :
    1 ≤ (1:ℕ) ∧
    (1 ≤ (jacobi_laplace_half_with_snapshots cfgA.T cfgA.fixed 1 1).2.1 ∧
     (jacobi_laplace_half_with_snapshots cfgA.T cfgA.fixed 1 1).2.1 ≤ 1 ∧
     ((jacobi_laplace_half_with_snapshots cfgA.T cfgA.fixed 1 1).2.2 < 1 ∨
       (jacobi_laplace_half_with_snapshots cfgA.T cfgA.fixed 1 1).2.1 = 1) ∧
     ((jacobi_laplace_half_with_snapshots cfgA.T cfgA.fixed 1 1).2.1 < 1 ↔
       ∃ k, 1 ≤ k ∧ k < 1 ∧
         metric_of cfgA.fixed ((stepGrid cfgA.fixed)^[k - 1] cfgA.T) < 1)) :=
  ⟨le_refl 1, C4_termination cfgA.T cfgA.fixed 1 1 (le_refl 1)⟩

theorem C5_metric_nonneg_amended_witness :
    0 ≤ metric_of cfgA.fixed cfgA.T ∧
    ((∀ j, j < cfgA.T.length → ∀ i, i < (cfgA.T.headD []).length →
        var_mask cfgA.T.length (cfgA.T.headD []).length
          (mget cfgA.fixed) j i = false) →
      metric_of cfgA.fixed cfgA.T = 0) :=
  C5_metric_nonneg_amended cfgA.fixed cfgA.T

theorem C6_scenario_A_witness :
    (0:ℚ) < 1/1000 ∧
    (metric_of cfgA.fixed cfgA.T = 0 ∧
     jacobi_laplace_half_with_snapshots cfgA.T cfgA.fixed (1/1000) 5 =
       (cfgA.T, 1, 0)) :=
  ⟨by norm_num, C6_scenario_A (1/1000) 5 (by norm_num)⟩

theorem C7_inner_rows_amended_witness :
    pySliceBound 5 (inner_j_low 5 1 (1/2)) ≤ 2 ∧
    2 < pySliceBound 5 (inner_j_high 5 1 (1/2) + 1) ∧
    1 < pySliceBound (nx_half 5) (inner_i_right 5 1 (1/2) + 1) ∧
    (gget (build_problem_half 5 1 (1/2) 100 32 212 90 none (4/9)).T 2 1 =
        212 ∧
     mget (build_problem_half 5 1 (1/2) 100 32 212 90 none (4/9)).fixed 2 1 =
        true) := by
  have h1 : pySliceBound 5 (inner_j_low 5 1 (1/2)) ≤ 2 := by
    norm_num [pySliceBound, inner_j_low, pyRound, h_y_of]
  have h2 : 2 < pySliceBound 5 (inner_j_high 5 1 (1/2) + 1) := by
    norm_num [pySliceBound, inner_j_high, pyRound, h_y_of]
  have h3 : 1 < pySliceBound (nx_half 5) (inner_i_right 5 1 (1/2) + 1) := by
    norm_num [pySliceBound, inner_i_right, pyRound, h_x_of, nx_half]
  exact ⟨h1, h2, h3, C7_inner_rows_amended 5 1 (1/2) 100 32 212 90 none (4/9)
    2 1 h1 h2 h3⟩

theorem C8_no_division_amended_witness :
    2 ≤ 7 ∧ (9:ℚ) ≠ 0 ∧ (build_ok 7 9 ∧ 1 < nx_half 7) :=
  ⟨by norm_num, by norm_num,
    C8_no_division_amended 7 9 (by norm_num) (by norm_num)⟩

theorem C9_mirror_roundtrip_witness :
    (∀ r ∈ [[(1:ℚ), 2], [3, 4]], r.length = 2) ∧
    (mirror_full_from_half [[(1:ℚ), 2], [3, 4]]).map
        (fun r => r.drop (2 - 1)) = [[(1:ℚ), 2], [3, 4]] := by
  have hT : ∀ r ∈ [[(1:ℚ), 2], [3, 4]], r.length = 2 := by
    intro r hr
    simp only [List.mem_cons, List.not_mem_nil, or_false] at hr
    rcases hr with rfl | rfl <;> rfl
  exact ⟨hT, C9_mirror_roundtrip [[(1:ℚ), 2], [3, 4]] 2 hT⟩

theorem C10_size_zero_inner_witness :
    3 ≤ 5 ∧ build_ok 5 1 ∧
    ((2:ℕ) : ℤ) = pyRound ((1 / 2) /
      (build_problem_half 5 1 0 100 32 212 90 none (4/9)).h_y) ∧
    (pySliceBound 5 (inner_j_low 5 1 0) = 2 ∧
     pySliceBound 5 (inner_j_high 5 1 0 + 1) = 2 + 1 ∧
     pySliceBound (nx_half 5) (inner_i_right 5 1 0 + 1) = 1 ∧
     gget (build_problem_half 5 1 0 100 32 212 90 none (4/9)).T 2 0 = 212 ∧
     mget (build_problem_half 5 1 0 100 32 212 90 none (4/9)).fixed 2 0 =
       true ∧
     gget ((stepGrid (build_problem_half 5 1 0 100 32 212 90 none
          (4/9)).fixed)^[3]
        (build_problem_half 5 1 0 100 32 212 90 none (4/9)).T) 2 0 = 212) := by
  have hok : build_ok 5 1 := by norm_num [build_ok, h_y_of, h_x_of, nx_half]
  have hjs : ((2:ℕ) : ℤ) = pyRound ((1 / 2) /
      (build_problem_half 5 1 0 100 32 212 90 none (4/9)).h_y) := by
    rw [build_h_y_eq]
    norm_num [pyRound, h_y_of]
  exact ⟨by norm_num, hok, hjs,
    C10_size_zero_inner 5 1 100 32 212 90 none (4/9) (by norm_num) hok 2 3 hjs⟩
